import Mathlib

/-!
Verification of `ts-react-component-doc-extractor` (files `src/cache.ts`,
`src/parser.ts`, `src/types.ts`).  The TypeScript sources are shallowly
embedded: pure functions become Lean functions, the stateful cache and the
compiler-host overlay become explicit state passing, JavaScript `Map`s become
association lists with `Map.set`/`Map.get`/`Map.delete` semantics, exceptions
become `Option`/flags, and calls into external collaborators (the TypeScript
checker, the filesystem, Node's `path` module) become explicit parameters or
faithful models of the external behaviour.
-/

namespace TsDocExtractor

/-! ## Data model (`src/types.ts`) -/

/-- `ParentType` from `types.ts`: `{name, fileName}`. -/
structure ParentType where
  name : String
  fileName : String
deriving DecidableEq, Repr

/-- `PropItemType` from `types.ts`: `{name, value?}` (the optional `value` is
never set by this code base, so it is omitted). -/
structure PropItemType where
  name : String
deriving DecidableEq, Repr

/-- The `{value}` object stored in `PropItem.defaultValue` by
`Parser.getPropInfo`. -/
structure DefaultValue where
  value : String
deriving DecidableEq, Repr

/-- `PropItem` from `types.ts`.  `defaultValue` is `{value} | null` in the
code, embedded as `Option DefaultValue`; `parent` is optional. -/
structure PropItem where
  name : String
  required : Bool
  type : PropItemType
  description : String
  defaultValue : Option DefaultValue
  parent : Option ParentType
deriving DecidableEq, Repr

/-- `ComponentDoc` from `types.ts`.  `props` is a string-indexed object built
by insertion; embedded as an association list in insertion order. -/
structure ComponentDoc where
  displayName : String
  description : String
  props : List (String × PropItem)
deriving DecidableEq, Repr

/-! ## JavaScript `Map` semantics

`cache.ts` and the compiler-host overlay use JavaScript `Map`s.  A JS `Map`
keeps keys unique and preserves insertion order: `set` overwrites in place
when the key is present, otherwise appends; `get` returns the stored value or
`undefined`; `delete` removes the key.  Embedded as association lists. -/

def mapGet {α : Type} (m : List (String × α)) (k : String) : Option α :=
  (m.find? (fun p => p.1 = k)).map (fun p => p.2)

def mapSet {α : Type} (m : List (String × α)) (k : String) (v : α) :
    List (String × α) :=
  if m.any (fun p => p.1 = k) then
    m.map (fun p => if p.1 = k then (k, v) else p)
  else
    m ++ [(k, v)]

def mapDelete {α : Type} (m : List (String × α)) (k : String) :
    List (String × α) :=
  m.filter (fun p => p.1 ≠ k)

/-! ## `DocCache` (`src/cache.ts`)

`DocCache` holds a numeric watermark `lastUpdate` (initially 0) and a
`Map` from file name to a frozen list of `ComponentDoc`.  `getOrAdd` stats the
requested file and, when `stat.ctimeMs - 1000 > lastUpdate`, runs `populate`
with a registrar whose `registerFile` raises a local pending watermark by
`max` with the registered file's `ctimeMs` and stores the list in the cache;
after `populate` returns normally the pending watermark is committed.

The filesystem is embedded as `fs : String → Int` giving each path's
`ctimeMs`.  What `populate` does is embedded as the trace it produces: the
sequence of `registerFile` calls it performs, plus whether it then throws
(when it throws, the calls in `regs` are the ones made before the throw). -/

structure DocCache where
  lastUpdate : Int
  cache : List (String × List ComponentDoc)
deriving DecidableEq, Repr

def DocCache.init : DocCache := { lastUpdate := 0, cache := [] }

structure PopulateTrace where
  regs : List (String × List ComponentDoc)
  throws : Bool
deriving DecidableEq, Repr

/-- One `registerFile(file, doc)` call of `cache.ts` lines 23–26, acting on
the pair (pending watermark, cache map). -/
def registerFile (fs : String → Int)
    (acc : Int × List (String × List ComponentDoc))
    (reg : String × List ComponentDoc) :
    Int × List (String × List ComponentDoc) :=
  (max acc.1 (fs reg.1), mapSet acc.2 reg.1 reg.2)

/-- Outcome of `DocCache.getOrAdd`: `result = none` means the exception thrown
by `populate` propagated out of the call. -/
structure GetOrAddOutcome where
  result : Option (List ComponentDoc)
  state : DocCache
  populateInvoked : Bool
deriving DecidableEq, Repr

/-- `DocCache.getOrAdd` (`cache.ts` lines 12–34). -/
def DocCache.getOrAdd (st : DocCache) (fs : String → Int) (file : String)
    (tr : PopulateTrace) : GetOrAddOutcome :=
  let stat := fs file
  if stat - 1000 > st.lastUpdate then
    let committed := tr.regs.foldl (registerFile fs) (st.lastUpdate, st.cache)
    if tr.throws then
      { result := none
        state := { st with cache := committed.2 }
        populateInvoked := true }
    else
      { result := some ((mapGet committed.2 file).getD [])
        state := { lastUpdate := committed.1, cache := committed.2 }
        populateInvoked := true }
  else
    { result := some ((mapGet st.cache file).getD [])
      state := st
      populateInvoked := false }

/-- A concrete filesystem: file `a` has ctime 7000, every other file 100. -/
def fsC1 : String → Int := fun f => if f = "a" then 7000 else 100

/-! ## Node's `path` module (POSIX), an external collaborator

`parser.ts` calls `path.dirname`, `path.basename` and `path.extname`.  These
are modelled faithfully after Node's POSIX implementations. -/

/-- The scan inside Node's `path.posix.dirname`: characters are examined from
the end of the path (original indices `len-1` down to `1`, supplied here as
the reversed character list with the leading character dropped), skipping
trailing slashes (`matchedSlash = true`), and the index of the first `/` seen
after a non-`/` is returned. -/
def dirnameFindEnd : List Char → Nat → Bool → Option Nat
  | [], _, _ => none
  | c :: rest, i, true =>
    if c = '/' then dirnameFindEnd rest (i - 1) true
    else dirnameFindEnd rest (i - 1) false
  | c :: rest, i, false =>
    if c = '/' then some i else dirnameFindEnd rest (i - 1) false

/-- Node's `path.posix.dirname`. -/
def posixDirname (p : String) : String :=
  if p.data.length = 0 then "."
  else
    match dirnameFindEnd (p.data.reverse.take (p.data.length - 1))
        (p.data.length - 1) true with
    | none => if p.data.head? = some '/' then "/" else "."
    | some e =>
      if p.data.head? = some '/' ∧ e = 1 then "//"
      else String.mk (p.data.take e)

/-- The found index never exceeds the scan's starting index (supports the
termination proof of `pathDepth`). -/
theorem dirnameFindEnd_le (l : List Char) :
    ∀ (i : Nat) (ms : Bool) (e : Nat), dirnameFindEnd l i ms = some e → e ≤ i := by
  induction l with
  | nil => intro i ms e h; simp [dirnameFindEnd] at h
  | cons c rest ih =>
    intro i ms e h
    cases ms with
    | true =>
      rw [dirnameFindEnd] at h
      split at h
      · exact le_trans (ih _ _ _ h) (Nat.sub_le i 1)
      · exact le_trans (ih _ _ _ h) (Nat.sub_le i 1)
    | false =>
      rw [dirnameFindEnd] at h
      split at h
      · injection h with h; omega
      · exact le_trans (ih _ _ _ h) (Nat.sub_le i 1)

/-- Starting in the trailing-slash-skipping state with at least as many
indices as characters, the found index is strictly below the starting index
(supports the termination proof of `pathDepth`). -/
theorem dirnameFindEnd_true_lt (l : List Char) :
    ∀ (i e : Nat), l.length ≤ i → dirnameFindEnd l i true = some e → e < i := by
  induction l with
  | nil => intro i e _ h; simp [dirnameFindEnd] at h
  | cons c rest ih =>
    intro i e hlen h
    simp only [List.length_cons] at hlen
    rw [dirnameFindEnd] at h
    split at h
    · have := ih (i - 1) e (by omega) h
      omega
    · have := dirnameFindEnd_le rest (i - 1) false e h
      omega

/-- `posixDirname` either is the identity, returns `"."`, or strictly
shortens its argument (supports the termination proof of `pathDepth`). -/
theorem posixDirname_reduces (p : String) :
    posixDirname p = p ∨ posixDirname p = "." ∨
      (posixDirname p).length < p.length := by
  by_cases h0 : p.data.length = 0
  · rw [posixDirname, if_pos h0]; right; left; rfl
  · rw [posixDirname, if_neg h0]
    split
    · by_cases hr : p.data.head? = some '/'
      · rw [if_pos hr]
        by_cases hlen : p.data.length = 1
        · left
          obtain ⟨a, ha⟩ := List.length_eq_one.mp hlen
          rw [ha] at hr
          simp only [List.head?_cons, Option.some.injEq] at hr
          cases p with
          | mk data =>
            simp only at ha
            rw [ha, hr]
        · right; right
          have h1 : ("/" : String).length = 1 := rfl
          have hp : p.length = p.data.length := rfl
          omega
      · rw [if_neg hr]; right; left; rfl
    · rename_i e hfe
      have hlt : e < p.data.length - 1 := by
        refine dirnameFindEnd_true_lt _ _ _ ?_ hfe
        rw [List.length_take, List.length_reverse]
        omega
      by_cases hq : p.data.head? = some '/' ∧ e = 1
      · rw [if_pos hq]
        right; right
        have h2 : ("//" : String).length = 2 := rfl
        have hp : p.length = p.data.length := rfl
        omega
      · rw [if_neg hq]
        right; right
        have htk : (String.mk (p.data.take e)).length = min e p.data.length := by
          show (p.data.take e).length = _
          rw [List.length_take]
        have hp : p.length = p.data.length := rfl
        omega

/-- `pathDepth` (`parser.ts` lines 47–50).  Note the slip in the source: the
recursive call is `pathDepth(parent) + depth`, leaving the recursive call's
`depth` parameter at its default 0 instead of passing an incremented depth. -/
def pathDepth (fileName : String) (depth : Nat := 0) : Nat :=
  let parent := posixDirname fileName
  if h : parent ≠ "" ∧ parent ≠ fileName then pathDepth parent + depth
  else depth
termination_by fileName.length + (if fileName = "." then 0 else 2)
decreasing_by
  have hdot : posixDirname "." = "." := by decide
  by_cases hp : fileName = "."
  · subst hp
    exact absurd hdot h.2
  · rw [if_neg hp]
    rcases posixDirname_reduces fileName with heq | hd | hlt
    · exact absurd heq h.2
    · rw [hd]
      have h2 : ("." : String).length + (if ("." : String) = "." then 0 else 2)
          = 1 := by decide
      rw [h2]
      omega
    · split <;> omega

/-- `mostRoot` (`parser.ts` lines 52–64).  The JS crashes on an empty input
array (`files[0]` is `undefined`); the model returns `""` there — the claims
only concern non-empty inputs. -/
def mostRoot (files : List String) : String :=
  (files.foldl
    (fun (acc : String × Nat) f =>
      let fDepth := pathDepth f
      if fDepth < acc.2 then (f, fDepth) else acc)
    (files.headD "", pathDepth (files.headD ""))).1

/-! ## Compiler options (`ts.CompilerOptions`, as used by `parser.ts`)

Only the fields this code base touches are modelled; a field that a
`tsconfig.json` may leave unset is an `Option`. -/

inductive JsxEmit where
  | None
  | Preserve
  | React
  | ReactNative
deriving DecidableEq, Repr

inductive ModuleKind where
  | CommonJS
  | AMD
  | ES2015
  | ESNext
deriving DecidableEq, Repr

inductive ScriptTarget where
  | ES5
  | ES2015
  | Latest
deriving DecidableEq, Repr

structure CompilerOptions where
  jsx : Option JsxEmit
  module : Option ModuleKind
  target : Option ScriptTarget
  rootDir : Option String
deriving DecidableEq, Repr

/-- TypeScript treats an absent `jsx` option as `JsxEmit.None`: the markup
extension (JSX) is enabled exactly when `jsx` is set to a non-`None` emit. -/
def jsxEnabled (o : CompilerOptions) : Bool :=
  match o.jsx with
  | some JsxEmit.None => false
  | Option.none => false
  | some _ => true

namespace Parser

/-- The option merge in `Parser`'s constructor (`parser.ts` lines 450–454):
`this.options = {...options, module: ts.ModuleKind.ESNext,
target: ts.ScriptTarget.Latest}` — a spread overridden by `module` and
`target` only. -/
def mergeOptions (options : CompilerOptions) : CompilerOptions :=
  { options with
    module := some ModuleKind.ESNext
    target := some ScriptTarget.Latest }

/-- The hardcoded options `Parser.parse` uses when no `tsconfig.json` is
found (`parser.ts` lines 418–424). -/
def defaultOptions : CompilerOptions :=
  { jsx := some JsxEmit.React
    module := some ModuleKind.ESNext
    target := some ScriptTarget.Latest
    rootDir := Option.none }

end Parser

/-! ## The modifiable compiler host's overlay (`parser.ts` lines 105–148)

`createCompilerHost` wraps the TypeScript host with an in-memory overlay
`extraFiles : Map<string, string>` consulted by `getSourceFile` before disk.
Only the overlay state matters here; delegation to disk is external. -/

/-- `addSourceFile` (`parser.ts` 136–142): throws (`Option.none`) when the
name is already present, otherwise stores the source. -/
def addSourceFile (extraFiles : List (String × String))
    (fileName source : String) : Option (List (String × String)) :=
  if extraFiles.any (fun p => p.1 = fileName) then Option.none
  else some (mapSet extraFiles fileName source)

/-- `removeSourceFile` (`parser.ts` 144–146): `extraFiles.delete(fileName)`. -/
def removeSourceFile (extraFiles : List (String × String))
    (fileName : String) : List (String × String) :=
  mapDelete extraFiles fileName

/-- The `fileExports.forEach(s => this.host.addSourceFile(...))` loop opening
the `try` block of `Parser.populate` (`parser.ts` 532–534): adds each props
file in turn; a throw (duplicate name) stops the loop, leaving the earlier
adds in place.  Returns the overlay and whether the loop threw. -/
def addAllSourceFiles (extraFiles : List (String × String)) :
    List (String × String) → List (String × String) × Bool
  | [] => (extraFiles, false)
  | (n, s) :: rest =>
    match addSourceFile extraFiles n s with
    | Option.none => (extraFiles, true)
    | some m => addAllSourceFiles m rest

/-- The overlay discipline of `Parser.populate`'s `try`/`finally`
(`parser.ts` 531–624): add every pending job's props file; run the phase-2
extraction body (modelled only by whether it throws — it never touches the
overlay); then, in `finally`, remove every props-file name on every exit
path.  Returns whether an exception escapes, with the final overlay. -/
def populateVirtualPass (extraFiles : List (String × String))
    (propsFiles : List (String × String)) (bodyThrows : Bool) :
    Bool × List (String × String) :=
  let added := addAllSourceFiles extraFiles propsFiles
  let threw := added.2 || (!added.2 && bodyThrows)
  (threw, propsFiles.foldl (fun m f => removeSourceFile m f.1) added.1)

/-! ## Phase-2 job processing (`parser.ts` lines 547–632) -/

/-- What the phase-2 loop body observes for one pending job — each field the
result of an external checker call on the job's virtual source — plus the
`ComponentDoc` the rest of the body would assemble were every check to
pass. -/
structure JobInfo where
  exportSourceFileFound : Bool
  hasErrorDiagnostic : Bool
  moduleSymbolFound : Bool
  propsExportFound : Bool
  extracted : ComponentDoc
deriving DecidableEq, Repr

/-- The branch structure of the phase-2 loop body (`parser.ts` 547–619):
each `continue` leaves the job's `component` at `null` (here `none`). -/
def processJob (j : JobInfo) : Option ComponentDoc :=
  if !j.exportSourceFileFound then Option.none
  else if j.hasErrorDiagnostic then Option.none
  else if !j.moduleSymbolFound then Option.none
  else if !j.propsExportFound then Option.none
  else some j.extracted

/-- The phase-2 loop over every pending job. -/
def processJobs (jobs : List JobInfo) : List (Option ComponentDoc) :=
  jobs.map processJob

/-- The registration step (`parser.ts` 626–632): components, `null`s
filtered out (`filter(notNull)`). -/
def registeredDocs (jobs : List JobInfo) : List ComponentDoc :=
  (processJobs jobs).filterMap id

/-! ## JSDoc resolution (`parser.ts` lines 23–45 and 659–712) -/

structure JSDoc where
  description : String
  fullComment : String
  tags : List (String × String)
deriving DecidableEq, Repr

/-- `defaultJSDoc` (`parser.ts` 29–33). -/
def defaultJSDoc : JSDoc := { description := "", fullComment := "", tags := [] }

/-- `ts.JSDocTagInfo`: a tag name and (possibly absent) text. -/
structure JSDocTagInfo where
  name : String
  text : Option String
deriving DecidableEq, Repr

/-- JavaScript's `String.prototype.trim`: whitespace stripped from both
ends, modelled structurally over the character list. -/
def jsTrim (s : String) : String :=
  String.mk
    (((s.data.dropWhile Char.isWhitespace).reverse.dropWhile
      Char.isWhitespace).reverse)

/-- `formatTag` (`parser.ts` 35–42); `if (tag.text)` is JS-truthy, so absent
or empty text appends nothing. -/
def formatTag (tag : JSDocTagInfo) : String :=
  let result := "@" ++ tag.name
  match tag.text with
  | some t => if t ≠ "" then result ++ " " ++ t else result
  | Option.none => result

/-- JavaScript's `String.prototype.replace` with a string pattern replaces
only the first occurrence. -/
def replaceFirst (s pat rep : String) : String :=
  match s.splitOn pat with
  | [] => s
  | [a] => a
  | a :: rest => a ++ rep ++ String.intercalate pat rest

/-- The body of the `tags.forEach` inside `Parser.getFullJsDocComment`
(`parser.ts` 695–705): updates the tag map (`tagMap`) and the rendered tag
block (`tagComments`).  `(tag.text || '').trim()` and the JS-truthy
`currentValue ? ... : ...` are modelled exactly. -/
def jsDocTagStep (acc : List (String × String) × List String)
    (tag : JSDocTagInfo) : List (String × String) × List String :=
  let trimmedText := jsTrim (tag.text.getD "")
  let currentValue := mapGet acc.1 tag.name
  let tagMap := mapSet acc.1 tag.name
    (match currentValue with
     | some cv => if cv ≠ "" then cv ++ "\n" ++ trimmedText
                  else trimmedText
     | Option.none => trimmedText)
  let tagComments :=
    if tag.name ≠ "default" then acc.2 ++ [formatTag tag] else acc.2
  (tagMap, tagComments)

/-- The whole `tags.forEach` loop (`parser.ts` 693–705), starting from the
empty map and the empty rendered block. -/
def jsDocTagFold (tags : List JSDocTagInfo) :
    List (String × String) × List String :=
  tags.foldl jsDocTagStep ([], [])

/-- The tag-map content per name, written after the spec's words as amended:
trimmed texts of the same-named tags are newline-joined in encounter order,
except that a previously stored *empty* value is replaced rather than
joined. -/
def mergeTagTexts : Option String → List String → Option String
  | acc, [] => acc
  | acc, t :: rest =>
    mergeTagTexts
      (some (match acc with
        | some cv => if cv ≠ "" then cv ++ "\n" ++ t else t
        | Option.none => t)) rest

/-- `Parser.getFullJsDocComment` (`parser.ts` 678–712).
`hasGetDocumentationComment` models the guard for symbols lacking the
method; `mainCommentRaw` is `ts.displayPartsToString` of the symbol's
documentation comment (external).  `.replace('\r\n', '\n')` replaces the
first occurrence only. -/
def getFullJsDocComment (hasGetDocumentationComment : Bool)
    (mainCommentRaw : String) (tags : List JSDocTagInfo) : JSDoc :=
  if !hasGetDocumentationComment then defaultJSDoc
  else
    let mainComment :=
      if mainCommentRaw ≠ "" then replaceFirst mainCommentRaw "\r\n" "\n"
      else mainCommentRaw
    let folded := jsDocTagFold tags
    { description := mainComment
      fullComment :=
        jsTrim (mainComment ++ "\n" ++ String.intercalate "\n" folded.2)
      tags := folded.1 }

/-- What the checker reports about one symbol's documentation: `id` models
reference identity (the `x !== symbol` comparison), the rest feeds
`getFullJsDocComment`. -/
structure SymbolDocs where
  id : Nat
  hasGetDocumentationComment : Bool
  mainComment : String
  tags : List JSDocTagInfo
deriving DecidableEq, Repr

def symbolJsDoc (s : SymbolDocs) : JSDoc :=
  getFullJsDocComment s.hasGetDocumentationComment s.mainComment s.tags

/-- `Parser.findDocComment` (`parser.ts` 659–676).  `rootSymbols` is
`checker.getRootSymbols(symbol)` (external); `if (comment.fullComment)` and
`filter(x => !!x.fullComment)` are JS-truthy (non-empty) tests. -/
def findDocComment (symbol : SymbolDocs)
    (rootSymbols : List SymbolDocs) : JSDoc :=
  let comment := symbolJsDoc symbol
  if comment.fullComment ≠ "" then comment
  else
    let commentsOnRootSymbols :=
      ((rootSymbols.filter (fun x => x.id ≠ symbol.id)).map symbolJsDoc).filter
        (fun x => x.fullComment ≠ "")
    if commentsOnRootSymbols.length ≠ 0 then
      commentsOnRootSymbols.headD defaultJSDoc
    else defaultJSDoc

/-! ## Property extraction (`parser.ts` lines 635–657) -/

/-- `ts.SymbolFlags.Optional = 1 << 24`. -/
def SymbolFlagsOptional : Nat := 16777216

/-- `hasFlag` (`parser.ts` 66–67): `Boolean(flags & value)`. -/
def hasFlag (flags value : Nat) : Bool := flags &&& value != 0

/-- One property symbol as `getPropInfo` observes it: its name, its flag
bits, its documentation inputs, its root symbols, and the parent computed by
`getParentType` (an AST walk, external here). -/
structure PropSymbol where
  name : String
  flags : Nat
  docs : SymbolDocs
  rootSymbols : List SymbolDocs
  parent : Option ParentType
deriving DecidableEq, Repr

/-- `Parser.getPropInfo` (`parser.ts` 635–657).  `typeString` is
`checker.typeToString(type.getNonNullableType())` (external);
`jsDocComment.tags.default ? {value: ...} : null` is a JS-truthy test, so an
empty default text yields `null`. -/
def getPropInfo (symbol : PropSymbol) (typeString : String) : PropItem :=
  let isOptional := hasFlag symbol.flags SymbolFlagsOptional
  let jsDocComment := findDocComment symbol.docs symbol.rootSymbols
  let defaultValue : Option DefaultValue :=
    match mapGet jsDocComment.tags "default" with
    | some t => if t ≠ "" then some ⟨t⟩ else Option.none
    | Option.none => Option.none
  { name := symbol.name
    required := !isOptional
    type := ⟨typeString⟩
    description := jsDocComment.fullComment
    defaultValue := defaultValue
    parent := symbol.parent }

/-! ## Component naming (`parser.ts` lines 211–244)

Needs Node's `path.basename` and `path.extname` (POSIX). -/

/-- Drop a path's trailing `/` characters. -/
def dropTrailingSlashes (l : List Char) : List Char :=
  (l.reverse.dropWhile (fun c => c = '/')).reverse

/-- The last path component, trailing slashes ignored. -/
def lastComponent (p : String) : String :=
  String.mk
    ((dropTrailingSlashes p.data).reverse.takeWhile
      (fun c => c ≠ '/')).reverse

/-- Node's `path.posix.basename(p, ext)`: the last component, with `ext`
stripped when it is a proper suffix (never when the component *is* the
extension). -/
def posixBasename (p : String) (ext : String := "") : String :=
  let base := lastComponent p
  if ext ≠ "" ∧ base ≠ ext ∧ ext.data.isSuffixOf base.data then
    base.dropRight ext.length
  else base

/-- Node's `path.posix.extname`: the suffix of the last component from its
last `.`; empty when there is no dot, the only dot leads the component (a
dotfile), or the component is exactly `".."`. -/
def posixExtname (p : String) : String :=
  let base := lastComponent p
  let afterDot := (base.data.reverse.takeWhile (fun c => c ≠ '.')).length
  if afterDot = base.data.length then ""
  else
    let dotIdx := base.data.length - afterDot - 1
    if dotIdx = 0 then ""
    else if base = ".." then ""
    else String.mk (base.data.drop dotIdx)

/-- `getDefaultExportForFile` (`parser.ts` 211–215): the file's extensionless
basename, or the parent directory's name when the file is an index file. -/
def getDefaultExportForFile (fileName : String) : String :=
  let name := posixBasename fileName (posixExtname fileName)
  if name = "index" then posixBasename (posixDirname fileName) else name

/-- `computeComponentName` (`parser.ts` 217–244).  `statelessDisplayName`
and `statefulDisplayName` are the literal `displayName` strings the two AST
reads (`getTextValueOfFunctionProperty`, `getTextValueOfClassMember`)
produce, `""` when absent — exactly the JS values whose truthiness the
function tests. -/
def computeComponentName (statelessDisplayName statefulDisplayName : String)
    (exportName : String) (sourceFileName : String) : String :=
  if statelessDisplayName ≠ "" ∨ statefulDisplayName ≠ "" then
    if statelessDisplayName ≠ "" then statelessDisplayName
    else if statefulDisplayName ≠ "" then statefulDisplayName
    else ""
  else if exportName = "default" ∨ exportName = "__function"
      ∨ exportName = "StatelessComponent" then
    getDefaultExportForFile sourceFileName
  else exportName

/-! ### Lemmas about the JS `Map` model -/

theorem mapGet_cons_eq {α : Type} (p : String × α) (l : List (String × α))
    (n : String) (h : p.1 = n) : mapGet (p :: l) n = some p.2 := by
  simp only [mapGet]
  rw [List.find?_cons_of_pos _ (by simp [h])]
  rfl

theorem mapGet_cons_ne {α : Type} (p : String × α) (l : List (String × α))
    (n : String) (h : p.1 ≠ n) : mapGet (p :: l) n = mapGet l n := by
  simp only [mapGet]
  rw [List.find?_cons_of_neg _ (by simp [h])]

theorem mapGet_map_subst_ne {α : Type} (m : List (String × α)) (k n : String)
    (v : α) (hne : n ≠ k) :
    mapGet (m.map (fun p => if p.1 = k then (k, v) else p)) n = mapGet m n := by
  induction m with
  | nil => rfl
  | cons p rest ih =>
    by_cases hp : p.1 = k
    · rw [List.map_cons, if_pos hp,
        mapGet_cons_ne _ _ _ (by simp [Ne.symm hne]),
        mapGet_cons_ne _ _ _ (by rw [hp]; exact Ne.symm hne)]
      exact ih
    · rw [List.map_cons, if_neg hp]
      by_cases hq : p.1 = n
      · rw [mapGet_cons_eq _ _ _ hq, mapGet_cons_eq _ _ _ hq]
      · rw [mapGet_cons_ne _ _ _ hq, mapGet_cons_ne _ _ _ hq]
        exact ih

theorem mapGet_mapSet_self {α : Type} (m : List (String × α)) (k : String)
    (v : α) : mapGet (mapSet m k v) k = some v := by
  induction m with
  | nil => exact mapGet_cons_eq _ _ _ rfl
  | cons p rest ih =>
    rw [mapSet]
    by_cases hp : p.1 = k
    · rw [if_pos (by simp [List.any_cons, hp])]
      rw [List.map_cons, if_pos hp, mapGet_cons_eq _ _ _ rfl]
    · by_cases hr : rest.any (fun q => q.1 = k) = true
      · rw [if_pos (by simp only [List.any_cons, hr, Bool.or_true])]
        have hres := ih
        rw [mapSet, if_pos hr] at hres
        rw [List.map_cons, if_neg hp, mapGet_cons_ne _ _ _ hp]
        exact hres
      · rw [if_neg (by simp [List.any_cons, hp, hr])]
        have hres := ih
        rw [mapSet, if_neg hr] at hres
        rw [List.cons_append, mapGet_cons_ne _ _ _ hp]
        exact hres

theorem mapGet_append_ne {α : Type} (m : List (String × α)) (k n : String)
    (v : α) (hne : n ≠ k) : mapGet (m ++ [(k, v)]) n = mapGet m n := by
  induction m with
  | nil => exact mapGet_cons_ne _ _ _ (Ne.symm hne)
  | cons p rest ih =>
    by_cases hq : p.1 = n
    · rw [List.cons_append, mapGet_cons_eq _ _ _ hq, mapGet_cons_eq _ _ _ hq]
    · rw [List.cons_append, mapGet_cons_ne _ _ _ hq, mapGet_cons_ne _ _ _ hq]
      exact ih

theorem mapGet_mapSet_ne {α : Type} (m : List (String × α)) (k n : String)
    (v : α) (hne : n ≠ k) : mapGet (mapSet m k v) n = mapGet m n := by
  rw [mapSet]
  by_cases ha : m.any (fun q => q.1 = k) = true
  · rw [if_pos ha]
    exact mapGet_map_subst_ne m k n v hne
  · rw [if_neg ha]
    exact mapGet_append_ne m k n v hne

theorem mapGet_mapDelete_self {α : Type} (m : List (String × α)) (k : String) :
    mapGet (mapDelete m k) k = Option.none := by
  induction m with
  | nil => rfl
  | cons p rest ih =>
    rw [mapDelete, List.filter_cons]
    by_cases hp : p.1 = k
    · rw [if_neg (by simp [hp])]
      exact ih
    · rw [if_pos (by simp [hp]), mapGet_cons_ne _ _ _ hp]
      exact ih

theorem mapGet_mapDelete_ne {α : Type} (m : List (String × α)) (k n : String)
    (hne : n ≠ k) : mapGet (mapDelete m k) n = mapGet m n := by
  induction m with
  | nil => rfl
  | cons p rest ih =>
    rw [mapDelete, List.filter_cons]
    by_cases hp : p.1 = k
    · rw [if_neg (by simp [hp]),
        show mapGet (p :: rest) n = mapGet rest n from
          mapGet_cons_ne _ _ _ (by rw [hp]; exact Ne.symm hne)]
      exact ih
    · by_cases hq : p.1 = n
      · rw [if_pos (by simp [hp]), mapGet_cons_eq _ _ _ hq,
          mapGet_cons_eq _ _ _ hq]
      · rw [if_pos (by simp [hp]), mapGet_cons_ne _ _ _ hq,
          mapGet_cons_ne _ _ _ hq]
        exact ih

/-- `find?` is the head of `filter`. -/
theorem head?_filter_eq_find? {α : Type} (q : α → Bool) (l : List α) :
    (l.filter q).head? = l.find? q := by
  induction l with
  | nil => rfl
  | cons x xs ih =>
    rw [List.filter_cons, List.find?_cons]
    by_cases hx : q x = true
    · rw [if_pos hx, hx]
      rfl
    · rw [if_neg hx, show q x = false by simpa using hx]
      exact ih

/-! ### Lemmas about the registration fold -/

theorem registerFile_foldl_fst (fs : String → Int)
    (regs : List (String × List ComponentDoc))
    (w : Int) (c : List (String × List ComponentDoc)) :
    (regs.foldl (registerFile fs) (w, c)).1
      = regs.foldl (fun m r => max m (fs r.1)) w := by
  induction regs generalizing w c with
  | nil => rfl
  | cons r rest ih =>
    simpa [registerFile] using ih (max w (fs r.1)) (mapSet c r.1 r.2)

theorem registerFile_foldl_snd (fs : String → Int)
    (regs : List (String × List ComponentDoc))
    (w : Int) (c : List (String × List ComponentDoc)) :
    (regs.foldl (registerFile fs) (w, c)).2
      = regs.foldl (fun m r => mapSet m r.1 r.2) c := by
  induction regs generalizing w c with
  | nil => rfl
  | cons r rest ih =>
    simpa [registerFile] using ih (max w (fs r.1)) (mapSet c r.1 r.2)

theorem le_foldl_max (fs : String → Int)
    (regs : List (String × List ComponentDoc)) (w : Int) :
    w ≤ regs.foldl (fun m r => max m (fs r.1)) w := by
  induction regs generalizing w with
  | nil => simp
  | cons r rest ih =>
    simp only [List.foldl_cons]
    exact le_trans (le_max_left w (fs r.1)) (ih (max w (fs r.1)))

/-! ### Claim C1 -/

/-- C1 counterexample: with watermark 5000, requested file `a` of ctime 7000
(so `populate` runs), and `populate` registering only file `b` of ctime 100,
the committed watermark is 5000 — not 100, the maximum modification time over
the files registered during the pass.  The claim's clause "the watermark is
committed to the maximum modification time observed over the files registered
during that pass" is therefore false as stated. -/
theorem c1_getOrAdd_counterexample :
    (DocCache.getOrAdd ⟨5000, []⟩ fsC1 "a" ⟨[("b", [])], false⟩).populateInvoked
        = true ∧
    ([("b", ([] : List ComponentDoc))].map (fun r => fsC1 r.1)) = [100] ∧
    (DocCache.getOrAdd ⟨5000, []⟩ fsC1 "a" ⟨[("b", [])], false⟩).state.lastUpdate
        = 5000 ∧
    (5000 : Int) ≠ 100 := by
  refine ⟨by decide, by decide, by decide, by decide⟩

/-- C1 (amended): `populate` is invoked iff the requested file's ctime exceeds
the watermark by more than the slack of 1000; when `populate` returns without
throwing, the committed watermark is the `max`-fold of the *previous watermark*
with the ctimes of the files registered during the pass (not the maximum over
the registered files alone), the cache is the previous cache overwritten by
the registrations, and the call returns the stored list for the requested
file, or the empty list if none is stored. -/
theorem c1_getOrAdd_amended (st : DocCache) (fs : String → Int) (file : String)
    (tr : PopulateTrace) (hnothrow : tr.throws = false) :
    ((st.getOrAdd fs file tr).populateInvoked = true
        ↔ fs file - 1000 > st.lastUpdate) ∧
    ((st.getOrAdd fs file tr).populateInvoked = true →
      (st.getOrAdd fs file tr).state.lastUpdate
        = tr.regs.foldl (fun m r => max m (fs r.1)) st.lastUpdate ∧
      (st.getOrAdd fs file tr).state.cache
        = tr.regs.foldl (fun c r => mapSet c r.1 r.2) st.cache) ∧
    ((st.getOrAdd fs file tr).populateInvoked = false →
      (st.getOrAdd fs file tr).state = st) ∧
    (st.getOrAdd fs file tr).result
      = some ((mapGet (st.getOrAdd fs file tr).state.cache file).getD []) := by
  unfold DocCache.getOrAdd
  by_cases h : fs file - 1000 > st.lastUpdate
  · simp [h, hnothrow, registerFile_foldl_fst, registerFile_foldl_snd]
  · simp [h]

/-- C1 witness: the amended theorem applied at a concrete input. -/
theorem c1_getOrAdd_witness :
    (PopulateTrace.mk [("a", [])] false).throws = false ∧
    (((DocCache.mk 0 []).getOrAdd (fun _ => 2000) "a"
          ⟨[("a", [])], false⟩).populateInvoked = true
        ↔ (fun _ => (2000 : Int)) "a" - 1000 > (DocCache.mk 0 []).lastUpdate) ∧
    (((DocCache.mk 0 []).getOrAdd (fun _ => 2000) "a"
          ⟨[("a", [])], false⟩).populateInvoked = true →
      ((DocCache.mk 0 []).getOrAdd (fun _ => 2000) "a"
          ⟨[("a", [])], false⟩).state.lastUpdate
        = [("a", ([] : List ComponentDoc))].foldl
            (fun m r => max m ((fun _ => (2000 : Int)) r.1)) 0 ∧
      ((DocCache.mk 0 []).getOrAdd (fun _ => 2000) "a"
          ⟨[("a", [])], false⟩).state.cache
        = [("a", ([] : List ComponentDoc))].foldl
            (fun c r => mapSet c r.1 r.2) []) ∧
    (((DocCache.mk 0 []).getOrAdd (fun _ => 2000) "a"
          ⟨[("a", [])], false⟩).populateInvoked = false →
      ((DocCache.mk 0 []).getOrAdd (fun _ => 2000) "a"
          ⟨[("a", [])], false⟩).state = DocCache.mk 0 []) ∧
    ((DocCache.mk 0 []).getOrAdd (fun _ => 2000) "a"
        ⟨[("a", [])], false⟩).result
      = some ((mapGet ((DocCache.mk 0 []).getOrAdd (fun _ => 2000) "a"
            ⟨[("a", [])], false⟩).state.cache "a").getD []) :=
  ⟨rfl, c1_getOrAdd_amended ⟨0, []⟩ (fun _ => 2000) "a" ⟨[("a", [])], false⟩ rfl⟩

/-! ### Claim C10 -/

/-- C10: on every `getOrAdd` call the watermark never decreases; and when
`populate` throws, the watermark is left exactly unchanged while the cache
keeps the entries registered before the throw. -/
theorem c10_getOrAdd_watermark_monotone (st : DocCache) (fs : String → Int)
    (file : String) (tr : PopulateTrace) :
    st.lastUpdate ≤ (st.getOrAdd fs file tr).state.lastUpdate ∧
    (tr.throws = true →
      (st.getOrAdd fs file tr).state.lastUpdate = st.lastUpdate ∧
      ((st.getOrAdd fs file tr).populateInvoked = true →
        (st.getOrAdd fs file tr).state.cache
          = tr.regs.foldl (fun c r => mapSet c r.1 r.2) st.cache)) := by
  unfold DocCache.getOrAdd
  by_cases h : fs file - 1000 > st.lastUpdate
  · by_cases ht : tr.throws
    · simp [h, ht, registerFile_foldl_snd]
    · simp [h, ht, registerFile_foldl_fst, registerFile_foldl_snd,
        le_foldl_max]
  · simp [h]

/-- C10 witness: a concrete call where `populate` registers `b` and then
throws: the watermark stays 7, the registered entry is stored. -/
theorem c10_getOrAdd_witness :
    (7 : Int) ≤ ((DocCache.mk 7 []).getOrAdd (fun _ => 5000) "a"
        ⟨[("b", [])], true⟩).state.lastUpdate ∧
    ((PopulateTrace.mk [("b", [])] true).throws = true →
      ((DocCache.mk 7 []).getOrAdd (fun _ => 5000) "a"
          ⟨[("b", [])], true⟩).state.lastUpdate = 7 ∧
      (((DocCache.mk 7 []).getOrAdd (fun _ => 5000) "a"
            ⟨[("b", [])], true⟩).populateInvoked = true →
        ((DocCache.mk 7 []).getOrAdd (fun _ => 5000) "a"
            ⟨[("b", [])], true⟩).state.cache
          = [("b", ([] : List ComponentDoc))].foldl
              (fun c r => mapSet c r.1 r.2) [])) :=
  c10_getOrAdd_watermark_monotone ⟨7, []⟩ (fun _ => 5000) "a" ⟨[("b", [])], true⟩

/-! ### Claim C3 -/

/-- `pathDepth` never increments the depth accumulator in its recursive call
(`pathDepth(parent) + depth` leaves the callee's `depth` at its default 0), so
it returns its `depth` argument unchanged: every path has computed depth 0. -/
theorem pathDepth_eq_depth (p : String) (d : Nat) : pathDepth p d = d := by
  induction p, d using pathDepth.induct with
  | case1 fileName depth parent h ih =>
    rw [pathDepth]
    simp only [dif_pos h, ih]
    omega
  | case2 fileName depth parent h =>
    rw [pathDepth]
    simp only [dif_neg h]

/-- Since every path depth is 0, the selection loop in `mostRoot` never
replaces its initial candidate: `mostRoot` returns the first input. -/
theorem mostRoot_eq_head (files : List String) :
    mostRoot files = files.headD "" := by
  have aux : ∀ (l : List String) (acc : String × Nat), acc.2 = 0 →
      (l.foldl
        (fun (acc : String × Nat) f =>
          if pathDepth f < acc.2 then (f, pathDepth f) else acc) acc).1
        = acc.1 := by
    intro l
    induction l with
    | nil => intro acc _; rfl
    | cons x xs ih =>
      intro acc h
      simp only [List.foldl_cons]
      rw [show pathDepth x = 0 from pathDepth_eq_depth x 0, h,
        if_neg (by omega)]
      exact ih acc h
  show (files.foldl
      (fun (acc : String × Nat) f =>
        if pathDepth f < acc.2 then (f, pathDepth f) else acc)
      (files.headD "", pathDepth (files.headD ""))).1 = files.headD ""
  rw [show pathDepth (files.headD "") = 0 from pathDepth_eq_depth _ _]
  exact aux files _ rfl

/-- C3 (code bug): `pathDepth` always evaluates to 0, so `mostRoot` returns
the *first* input path, not the shallowest one; on
`["/a/b/c/x.ts", "/a/y.ts"]` the project-configuration search starts from the
deeper first input instead of the shallower second one. -/
theorem c3_mostRoot_returns_first_not_shallowest :
    (∀ (p : String) (d : Nat), pathDepth p d = d) ∧
    (∀ files : List String, mostRoot files = files.headD "") ∧
    mostRoot ["/a/b/c/x.ts", "/a/y.ts"] = "/a/b/c/x.ts" ∧
    pathDepth "/a/b/c/x.ts" = 0 ∧ pathDepth "/a/y.ts" = 0 :=
  ⟨pathDepth_eq_depth, mostRoot_eq_head,
    mostRoot_eq_head _, pathDepth_eq_depth _ _, pathDepth_eq_depth _ _⟩

/-! ### Claim C2 -/

/-- C2 counterexample: constructing a parser from a discovered project
configuration whose options leave `jsx` unset (a perfectly legal
`tsconfig.json`), the effective options after the constructor's merge still
have `jsx` unset — the markup extension is *not* enabled.  The constructor
forces only `module` and `target`. -/
theorem c2_options_counterexample :
    jsxEnabled (Parser.mergeOptions
      ⟨Option.none, some ModuleKind.CommonJS, some ScriptTarget.ES5,
        Option.none⟩) = false ∧
    (Parser.mergeOptions
      ⟨Option.none, some ModuleKind.CommonJS, some ScriptTarget.ES5,
        Option.none⟩).module = some ModuleKind.ESNext := by
  exact ⟨rfl, rfl⟩

/-- C2 (amended): for every parser construction the effective compiler
options force latest module/target semantics regardless of the project
configuration, but the markup extension (`jsx`) is passed through from the
given options unchanged; only the hardcoded default used when no project
configuration is found enables it. -/
theorem c2_options_amended (options : CompilerOptions) :
    (Parser.mergeOptions options).module = some ModuleKind.ESNext ∧
    (Parser.mergeOptions options).target = some ScriptTarget.Latest ∧
    (Parser.mergeOptions options).jsx = options.jsx ∧
    jsxEnabled Parser.defaultOptions = true ∧
    Parser.mergeOptions Parser.defaultOptions = Parser.defaultOptions :=
  ⟨rfl, rfl, rfl, rfl, rfl⟩

/-! ### Claim C4 -/

/-- The `finally` loop deletes every props-file name; a name not among them
keeps its binding. -/
theorem mapGet_removeAll (files : List (String × String))
    (m : List (String × String)) (n : String) :
    mapGet (files.foldl (fun m f => removeSourceFile m f.1) m) n
      = if n ∈ files.map Prod.fst then Option.none else mapGet m n := by
  induction files generalizing m with
  | nil => simp
  | cons f rest ih =>
    rw [List.foldl_cons, ih]
    by_cases hmem : n ∈ rest.map Prod.fst
    · rw [if_pos hmem, if_pos (by simp [hmem])]
    · rw [if_neg hmem]
      by_cases hk : n = f.1
      · rw [if_pos (by simp [hk]), removeSourceFile, hk,
          mapGet_mapDelete_self]
      · rw [if_neg (by simp [hk, hmem]), removeSourceFile,
          mapGet_mapDelete_ne _ _ _ hk]

/-- The `try`-opening add loop touches only the props-file names, even when
it stops early on a duplicate. -/
theorem mapGet_addAllSourceFiles_not_mem (files : List (String × String))
    (m : List (String × String)) (n : String)
    (hn : n ∉ files.map Prod.fst) :
    mapGet (addAllSourceFiles m files).1 n = mapGet m n := by
  induction files generalizing m with
  | nil => rfl
  | cons f rest ih =>
    obtain ⟨hne, hrest⟩ : n ≠ f.1 ∧ n ∉ rest.map Prod.fst := by
      constructor
      · intro hk; exact hn (by simp [hk])
      · intro hk; exact hn (by simp [hk])
    rw [show (f :: rest : List (String × String)) = (f.1, f.2) :: rest by rfl,
      addAllSourceFiles, addSourceFile]
    by_cases ha : m.any (fun p => p.1 = f.1) = true
    · rw [if_pos ha]
    · rw [if_neg ha]
      rw [ih (mapSet m f.1 f.2) hrest, mapGet_mapSet_ne _ _ _ _ hne]

/-- C4: after one populate pass's `try`/`finally` — on every exit path:
normal return, a throw while adding (duplicate name), or a throw from the
phase-2 body — the overlay holds none of the pass's virtual-source names,
and every other name's binding is exactly what it was before the pass. -/
theorem c4_virtual_sources_always_retracted
    (extraFiles propsFiles : List (String × String)) (bodyThrows : Bool)
    (n : String) :
    (n ∈ propsFiles.map Prod.fst →
      mapGet (populateVirtualPass extraFiles propsFiles bodyThrows).2 n
        = Option.none) ∧
    (n ∉ propsFiles.map Prod.fst →
      mapGet (populateVirtualPass extraFiles propsFiles bodyThrows).2 n
        = mapGet extraFiles n) := by
  constructor
  · intro hmem
    rw [populateVirtualPass]
    simp only []
    rw [mapGet_removeAll, if_pos hmem]
  · intro hmem
    rw [populateVirtualPass]
    simp only []
    rw [mapGet_removeAll, if_neg hmem,
      mapGet_addAllSourceFiles_not_mem _ _ _ hmem]

/-- C4 witness: a concrete pass over an overlay `[("keep", "k")]` adding one
virtual file and then throwing from the body: the virtual name is gone, the
other binding intact. -/
theorem c4_virtual_sources_witness :
    ("/fakefs/ts/export-0.d.ts" ∈
        ([("/fakefs/ts/export-0.d.ts", "src")] : List (String × String)).map
          Prod.fst →
      mapGet (populateVirtualPass [("keep", "k")]
          [("/fakefs/ts/export-0.d.ts", "src")] true).2
          "/fakefs/ts/export-0.d.ts" = Option.none) ∧
    ("/fakefs/ts/export-0.d.ts" ∉
        ([("/fakefs/ts/export-0.d.ts", "src")] : List (String × String)).map
          Prod.fst →
      mapGet (populateVirtualPass [("keep", "k")]
          [("/fakefs/ts/export-0.d.ts", "src")] true).2
          "/fakefs/ts/export-0.d.ts" = mapGet [("keep", "k")]
          "/fakefs/ts/export-0.d.ts") :=
  c4_virtual_sources_always_retracted [("keep", "k")]
    [("/fakefs/ts/export-0.d.ts", "src")] true "/fakefs/ts/export-0.d.ts"

/-! ### Claim C5 -/

/-- A job whose virtual source has a blocking diagnostic, or whose module
symbol is unresolved, or which lacks a `Props` export, is dropped: its
component stays `null`. -/
theorem processJob_eq_none_of_bad (j : JobInfo)
    (hbad : j.hasErrorDiagnostic = true ∨ j.moduleSymbolFound = false
      ∨ j.propsExportFound = false) :
    processJob j = Option.none := by
  rcases hbad with h | h | h <;>
    cases hexp : j.exportSourceFileFound <;>
      simp [processJob, h, hexp]

/-- C5: in phase 2, a pending job with a blocking diagnostic, an unresolved
module symbol, or a missing `Props` export is simply absent from the
registered list — no error is raised — and every sibling job's outcome is
exactly what it is on its own. -/
theorem c5_phase2_bad_job_dropped_silently (pre post : List JobInfo)
    (j : JobInfo)
    (hbad : j.hasErrorDiagnostic = true ∨ j.moduleSymbolFound = false
      ∨ j.propsExportFound = false) :
    processJob j = Option.none ∧
    processJobs (pre ++ j :: post)
      = processJobs pre ++ Option.none :: processJobs post ∧
    registeredDocs (pre ++ j :: post)
      = registeredDocs pre ++ registeredDocs post := by
  have hj := processJob_eq_none_of_bad j hbad
  refine ⟨hj, ?_, ?_⟩
  · simp [processJobs, hj]
  · simp [registeredDocs, processJobs, hj]

/-- C5 witness: a concrete three-job pass whose middle job has a blocking
diagnostic: the middle component is absent, the siblings untouched. -/
theorem c5_phase2_witness :
    ((JobInfo.mk true true true true ⟨"Bad", "", []⟩).hasErrorDiagnostic = true
      ∨ (JobInfo.mk true true true true ⟨"Bad", "", []⟩).moduleSymbolFound
          = false
      ∨ (JobInfo.mk true true true true ⟨"Bad", "", []⟩).propsExportFound
          = false) ∧
    (processJob (JobInfo.mk true true true true ⟨"Bad", "", []⟩)
        = Option.none ∧
     processJobs ([JobInfo.mk true false true true ⟨"A", "", []⟩]
          ++ (JobInfo.mk true true true true ⟨"Bad", "", []⟩)
            :: [JobInfo.mk true false true true ⟨"B", "", []⟩])
        = processJobs [JobInfo.mk true false true true ⟨"A", "", []⟩]
          ++ Option.none
            :: processJobs [JobInfo.mk true false true true ⟨"B", "", []⟩] ∧
     registeredDocs ([JobInfo.mk true false true true ⟨"A", "", []⟩]
          ++ (JobInfo.mk true true true true ⟨"Bad", "", []⟩)
            :: [JobInfo.mk true false true true ⟨"B", "", []⟩])
        = registeredDocs [JobInfo.mk true false true true ⟨"A", "", []⟩]
          ++ registeredDocs [JobInfo.mk true false true true ⟨"B", "", []⟩]) :=
  ⟨Or.inl rfl,
    c5_phase2_bad_job_dropped_silently
      [JobInfo.mk true false true true ⟨"A", "", []⟩]
      [JobInfo.mk true false true true ⟨"B", "", []⟩]
      (JobInfo.mk true true true true ⟨"Bad", "", []⟩) (Or.inl rfl)⟩

/-! ### Claim C6 -/

theorem jsDocTagStep_eq (acc : List (String × String) × List String)
    (tag : JSDocTagInfo) :
    jsDocTagStep acc tag
      = (mapSet acc.1 tag.name
          (match mapGet acc.1 tag.name with
           | some cv => if cv ≠ "" then cv ++ "\n" ++ jsTrim (tag.text.getD "")
                        else jsTrim (tag.text.getD "")
           | Option.none => jsTrim (tag.text.getD "")),
         if tag.name ≠ "default" then acc.2 ++ [formatTag tag] else acc.2) :=
  rfl

theorem mergeTagTexts_cons (acc : Option String) (x : String)
    (l : List String) :
    mergeTagTexts acc (x :: l)
      = mergeTagTexts
          (some (match acc with
            | some cv => if cv ≠ "" then cv ++ "\n" ++ x else x
            | Option.none => x)) l :=
  rfl

/-- The rendered tag block accumulates exactly one `formatTag` line per
non-`default` tag, in encounter order. -/
theorem jsDocTagFold_snd_aux (tags : List JSDocTagInfo) :
    ∀ (m : List (String × String)) (cs : List String),
    (List.foldl jsDocTagStep (m, cs) tags).2
      = cs ++ (tags.filter (fun t => t.name ≠ "default")).map formatTag := by
  induction tags with
  | nil => intro m cs; simp
  | cons t rest ih =>
    intro m cs
    rw [List.foldl_cons, jsDocTagStep_eq, List.filter_cons]
    by_cases hd : t.name = "default"
    · rw [if_neg (by simp [hd]), if_neg (by simp [hd])]
      exact ih _ _
    · rw [if_pos (by simp [hd]), if_pos (by simp [hd]), List.map_cons,
        ih _ _]
      simp [List.append_assoc]

/-- The tag map holds, per name, the `mergeTagTexts` fold of the same-named
tags' trimmed texts. -/
theorem jsDocTagFold_fst_aux (tags : List JSDocTagInfo) :
    ∀ (m : List (String × String)) (cs : List String) (name : String),
    mapGet (List.foldl jsDocTagStep (m, cs) tags).1 name
      = mergeTagTexts (mapGet m name)
          ((tags.filter (fun t => t.name = name)).map
            (fun t => jsTrim (t.text.getD ""))) := by
  induction tags with
  | nil => intro m cs name; rfl
  | cons t rest ih =>
    intro m cs name
    rw [List.foldl_cons, jsDocTagStep_eq, List.filter_cons]
    by_cases hn : t.name = name
    · rw [if_pos (show decide (t.name = name) = true by simp [hn]),
        List.map_cons, ih _ _ name, hn, mapGet_mapSet_self,
        mergeTagTexts_cons]
    · rw [if_neg (show ¬(decide (t.name = name) = true) by simp [hn]),
        ih _ _ name,
        mapGet_mapSet_ne _ _ _ _ (fun hcontra => hn hcontra.symm)]

/-- C6 counterexample: two `foo` tags whose trimmed texts are `""` then
`"a"`.  Newline-joining the trimmed texts gives `"\na"`, but the stored map
entry is `"a"`: the JS-truthy `currentValue ? join : replace` replaces an
empty stored value instead of joining. -/
theorem c6_getFullJsDocComment_counterexample :
    (getFullJsDocComment true ""
      [⟨"foo", some ""⟩, ⟨"foo", some "a"⟩]).tags = [("foo", "a")] ∧
    String.intercalate "\n" [jsTrim "", jsTrim "a"] = "\na" ∧
    ("a" : String) ≠ "\na" := by
  refine ⟨?_, by decide, by decide⟩
  decide

/-- C6 (amended): for every symbol the computed documentation satisfies: the
tag map holds, per tag name, the trimmed texts of that name's tags merged in
encounter order by newline-joining — except that an *empty* stored value is
replaced rather than joined (`mergeTagTexts`); a `default` tag is present in
the map (its text merged like any other) but contributes no line to the
rendered tag block; and `fullComment` is
`trim(mainText ++ "\n" ++ the formatted non-default tag lines joined by
newlines, in encounter order)`. -/
theorem c6_getFullJsDocComment_amended (mainCommentRaw : String)
    (tags : List JSDocTagInfo) (name : String) :
    mapGet (getFullJsDocComment true mainCommentRaw tags).tags name
      = mergeTagTexts Option.none
          ((tags.filter (fun t => t.name = name)).map
            (fun t => jsTrim (t.text.getD ""))) ∧
    (getFullJsDocComment true mainCommentRaw tags).fullComment
      = jsTrim ((if mainCommentRaw ≠ "" then replaceFirst mainCommentRaw "\r\n" "\n"
          else mainCommentRaw)
         ++ "\n" ++ String.intercalate "\n"
           ((tags.filter (fun t => t.name ≠ "default")).map
             formatTag)) := by
  constructor
  · show mapGet (jsDocTagFold tags).1 name = _
    rw [jsDocTagFold, jsDocTagFold_fst_aux]
    rfl
  · show jsTrim ((if mainCommentRaw ≠ "" then replaceFirst mainCommentRaw "\r\n" "\n"
        else mainCommentRaw)
        ++ "\n" ++ String.intercalate "\n" (jsDocTagFold tags).2) = _
    rw [jsDocTagFold, jsDocTagFold_snd_aux]
    rfl

/-! ### Claim C7 -/

/-- C7: a symbol whose own rendered comment is empty resolves to the doc of
the first root symbol — in order, the symbol itself excluded — whose rendered
comment is non-empty; when no root symbol carries one, to the all-empty
default. -/
theorem c7_findDocComment_root_fallback (symbol : SymbolDocs)
    (rootSymbols : List SymbolDocs)
    (hown : (symbolJsDoc symbol).fullComment = "") :
    findDocComment symbol rootSymbols
      = (((rootSymbols.filter (fun x => x.id ≠ symbol.id)).find?
            (fun x => (symbolJsDoc x).fullComment ≠ "")).map symbolJsDoc).getD
          defaultJSDoc := by
  have key : ∀ l : List JSDoc,
      (if l.length ≠ 0 then l.headD defaultJSDoc else defaultJSDoc)
        = l.head?.getD defaultJSDoc := by
    intro l
    cases l with
    | nil => simp
    | cons c cs => simp
  have hstruct : findDocComment symbol rootSymbols
      = (((rootSymbols.filter (fun x => x.id ≠ symbol.id)).map
            symbolJsDoc).filter (fun x => x.fullComment ≠ "")).head?.getD
          defaultJSDoc := by
    simp only [findDocComment]
    rw [if_neg (by simp [hown])]
    exact key _
  rw [hstruct, List.filter_map, List.head?_map, head?_filter_eq_find?]
  simp [Function.comp]

/-- C7 witness: an uncommented symbol with two root symbols, the first
uncommented and the second commented `hello`: resolution yields the second
root's doc. -/
theorem c7_findDocComment_witness :
    (symbolJsDoc ⟨0, true, "", []⟩).fullComment = "" ∧
    findDocComment ⟨0, true, "", []⟩ [⟨1, true, "", []⟩, ⟨2, true, "hello", []⟩]
      = (((([⟨1, true, "", []⟩, ⟨2, true, "hello", []⟩]
            : List SymbolDocs).filter
              (fun x => x.id ≠ (SymbolDocs.mk 0 true "" []).id)).find?
            (fun x => (symbolJsDoc x).fullComment ≠ "")).map symbolJsDoc).getD
          defaultJSDoc :=
  ⟨by decide,
    c7_findDocComment_root_fallback ⟨0, true, "", []⟩
      [⟨1, true, "", []⟩, ⟨2, true, "hello", []⟩] (by decide)⟩

/-! ### Claim C8 -/

/-- C8 counterexample: a property whose only documentation is the tag
`@default medium`.  The `@default` tag is present with text `medium`, yet the
extracted `defaultValue` is absent: a `default` tag contributes no rendered
line, so the symbol's own `fullComment` is empty and doc resolution discards
the own tag map in favour of the all-empty default. -/
theorem c8_getPropInfo_counterexample :
    (getPropInfo
      ⟨"size", 0, ⟨0, true, "", [⟨"default", some "medium"⟩]⟩, [],
        Option.none⟩ "string").defaultValue = Option.none ∧
    (Option.none : Option DefaultValue) ≠ some ⟨"medium"⟩ := by
  exact ⟨by decide, by decide⟩

/-- C8 (amended): `required` is true exactly when the optional flag bit is
clear; `defaultValue` is `{value: t}` exactly when the *resolved*
documentation's tag map holds a `default` entry with non-empty text `t` — the
symbol's own tags count only when its rendered `fullComment` is non-empty,
so a doc consisting solely of a `@default` tag is lost to the root-symbol
fallback; a fully undocumented symbol with no root symbols gets an empty
description and no default; and the spec's example — a required,
undocumented string property `label` — yields
`{required: true, defaultValue: absent, description: ""}`. -/
theorem c8_getPropInfo_amended (symbol : PropSymbol) (typeString t : String) :
    ((getPropInfo symbol typeString).required = true
      ↔ symbol.flags &&& SymbolFlagsOptional = 0) ∧
    ((getPropInfo symbol typeString).defaultValue = some ⟨t⟩
      ↔ mapGet (findDocComment symbol.docs symbol.rootSymbols).tags "default"
          = some t ∧ t ≠ "") ∧
    (symbol.docs.mainComment = "" → symbol.docs.tags = [] →
      symbol.rootSymbols = [] →
      (getPropInfo symbol typeString).description = "" ∧
      (getPropInfo symbol typeString).defaultValue = Option.none) ∧
    getPropInfo ⟨"label", 0, ⟨0, true, "", []⟩, [], Option.none⟩ "string"
      = ⟨"label", true, ⟨"string"⟩, "", Option.none, Option.none⟩ := by
  refine ⟨?_, ?_, ?_, by decide⟩
  · simp [getPropInfo, hasFlag]
  · have hdv : (getPropInfo symbol typeString).defaultValue
        = (match mapGet (findDocComment symbol.docs symbol.rootSymbols).tags
              "default" with
           | some u => if u ≠ "" then some ⟨u⟩ else Option.none
           | Option.none => Option.none) := rfl
    cases hm : mapGet (findDocComment symbol.docs symbol.rootSymbols).tags
        "default" with
    | none =>
      rw [hm] at hdv
      have hdv2 : (getPropInfo symbol typeString).defaultValue
          = Option.none := hdv
      rw [hdv2]
      simp
    | some u =>
      rw [hm] at hdv
      have hdv2 : (getPropInfo symbol typeString).defaultValue
          = if u ≠ "" then some ⟨u⟩ else Option.none := hdv
      rw [hdv2]
      by_cases hu : u = ""
      · rw [if_neg (by simp [hu])]
        constructor
        · intro h; exact absurd h (by simp)
        · rintro ⟨h1, h2⟩
          obtain rfl : u = t := Option.some.inj h1
          exact (h2 hu).elim
      · rw [if_pos hu]
        constructor
        · intro h
          obtain rfl : u = t := congrArg DefaultValue.value (Option.some.inj h)
          exact ⟨rfl, hu⟩
        · rintro ⟨h1, h2⟩
          obtain rfl : u = t := Option.some.inj h1
          rfl
  · intro hmain htags hroots
    rcases symbol with ⟨nm, fl, docs, roots, par⟩
    rcases docs with ⟨i, hg, mc, tg⟩
    simp only at hmain htags hroots
    subst hmain htags hroots
    cases hg
    · have hdoc : findDocComment ⟨i, false, "", []⟩ [] = defaultJSDoc := rfl
      simp [getPropInfo, hdoc, defaultJSDoc, mapGet]
    · have hdoc : findDocComment ⟨i, true, "", []⟩ [] = defaultJSDoc := rfl
      simp [getPropInfo, hdoc, defaultJSDoc, mapGet]

/-! ### Claim C9 -/

/-- C9: an export named by the default-export marker or either
anonymous-function marker, with no literal `displayName` assignment, is named
from the file: the extensionless basename, or the parent directory for an
index file — `Button.tsx` gives `Button`, `Card/index.tsx` gives `Card`. -/
theorem c9_componentName_from_fileName (exportName fileName : String)
    (hmarker : exportName = "default" ∨ exportName = "__function"
      ∨ exportName = "StatelessComponent") :
    computeComponentName "" "" exportName fileName
      = getDefaultExportForFile fileName ∧
    computeComponentName "" "" "default" "/proj/Button.tsx" = "Button" ∧
    computeComponentName "" "" "default" "/proj/Card/index.tsx" = "Card" := by
  refine ⟨?_, by decide, by decide⟩
  rw [computeComponentName, if_neg (by simp), if_pos hmarker]

/-- C9 witness: the theorem at the marker `default` and a concrete file. -/
theorem c9_componentName_witness :
    (("default" : String) = "default" ∨ ("default" : String) = "__function"
      ∨ ("default" : String) = "StatelessComponent") ∧
    (computeComponentName "" "" "default" "/app/Button.tsx"
        = getDefaultExportForFile "/app/Button.tsx" ∧
     computeComponentName "" "" "default" "/proj/Button.tsx" = "Button" ∧
     computeComponentName "" "" "default" "/proj/Card/index.tsx" = "Card") :=
  ⟨Or.inl rfl,
    c9_componentName_from_fileName "default" "/app/Button.tsx" (Or.inl rfl)⟩

end TsDocExtractor
